import Mathlib

/-!
# Verification of the Prism python-service document pipeline

Shallow embedding of `python-service/app` (PDF text extraction, chunking,
image extraction, OCR, embeddings, similarity search, database writes) and
proofs about it.

Python strings are modelled as `List Char`; Python `str.split()` (split on
whitespace runs, dropping empties) and `' '.join` are modelled explicitly.
Machine floats are idealised as rationals (for data) and reals (for cosine
similarity scores).
-/

namespace Prism

/-- Python strings as character lists. -/
abbrev PyStr := List Char

/-- Convert a Lean string literal to the model's string type. -/
def pyStr (s : String) : PyStr := s.toList

/-- Whitespace characters recognised by Python's `str.split()` /
`str.isspace` (the ASCII ones; the model restricts to these). -/
def isSpace (c : Char) : Bool :=
  c = ' ' || c = '\t' || c = '\n' || c = '\r' || c = '\x0b' || c = '\x0c'

/-- Python `text.split()`: split on runs of whitespace, dropping empty
fragments. -/
def pySplit : PyStr → List PyStr
  | [] => []
  | c :: cs =>
    if h : isSpace c then pySplit cs
    else
      ((c :: cs).takeWhile (fun d => !isSpace d)) ::
        pySplit ((c :: cs).dropWhile (fun d => !isSpace d))
termination_by s => s.length
decreasing_by
  · simp
  · simp only [List.dropWhile_cons]
    rw [if_pos (by simp [h])]
    have hlen := (List.dropWhile_sublist (fun d => !isSpace d) :
      List.Sublist (cs.dropWhile (fun d => !isSpace d)) cs).length_le
    simp only [List.length_cons]
    omega

/-- Python `" ".join(words)`. -/
def joinSp : List PyStr → PyStr
  | [] => []
  | [w] => w
  | w :: w' :: ws => w ++ ' ' :: joinSp (w' :: ws)

/-- Word count of a Python string, as the source computes it:
`len(text.split())`. -/
def wordCount (s : PyStr) : Nat := (pySplit s).length

/-- A "word" in the model: a nonempty string with no whitespace.  Every
fragment produced by `pySplit` is a word in this sense. -/
def IsWord (w : PyStr) : Prop := w ≠ [] ∧ ∀ c ∈ w, isSpace c = false

theorem pySplit_sp_cons (t : PyStr) (c : Char) (hc : isSpace c = true) :
    pySplit (c :: t) = pySplit t := by
  rw [pySplit]
  simp [hc]

theorem isWord_pySplit : ∀ (s : PyStr), ∀ w ∈ pySplit s, IsWord w := by
  intro s
  induction s using pySplit.induct with
  | case1 => intro w hw; simp [pySplit] at hw
  | case2 c cs h ih =>
    rw [pySplit]; simp only [h, if_pos]
    exact ih
  | case3 c cs h ih =>
    rw [pySplit]; simp only [h, if_neg]
    intro w hw
    rcases List.mem_cons.mp hw with hl | hr
    · subst hl
      constructor
      · rw [List.takeWhile_cons]
        simp [h]
      · intro d hd
        have := List.mem_takeWhile_imp hd
        simpa using this
    · exact ih w hr

theorem takeWhile_word_sp (w t : PyStr) (hfree : ∀ c ∈ w, isSpace c = false) :
    (w ++ ' ' :: t).takeWhile (fun d => !isSpace d) = w := by
  induction w with
  | nil => simp [List.takeWhile_cons, isSpace]
  | cons c cs ih =>
    simp only [List.cons_append, List.takeWhile_cons]
    have hc : isSpace c = false := hfree c (List.mem_cons_self c cs)
    simp only [hc, Bool.not_false, if_pos]
    rw [ih (fun d hd => hfree d (List.mem_cons_of_mem c hd))]

theorem dropWhile_word_sp (w t : PyStr) (hfree : ∀ c ∈ w, isSpace c = false) :
    (w ++ ' ' :: t).dropWhile (fun d => !isSpace d) = ' ' :: t := by
  induction w with
  | nil => simp [List.dropWhile_cons, isSpace]
  | cons c cs ih =>
    simp only [List.cons_append, List.dropWhile_cons]
    have hc : isSpace c = false := hfree c (List.mem_cons_self c cs)
    simp only [hc, Bool.not_false, if_pos]
    exact ih (fun d hd => hfree d (List.mem_cons_of_mem c hd))

theorem pySplit_word_sp (w t : PyStr) (hw : IsWord w) :
    pySplit (w ++ ' ' :: t) = w :: pySplit t := by
  obtain ⟨hne, hfree⟩ := hw
  match w, hne with
  | c :: cs, _ =>
    have hc : isSpace c = false := hfree c (List.mem_cons_self c cs)
    rw [List.cons_append, pySplit]
    simp only [hc, if_neg, Bool.false_eq_true, not_false_eq_true, reduceDIte]
    rw [← List.cons_append]
    rw [takeWhile_word_sp _ _ hfree, dropWhile_word_sp _ _ hfree]
    rw [pySplit_sp_cons _ ' ' (by simp [isSpace])]

theorem pySplit_word (w : PyStr) (hw : IsWord w) : pySplit w = [w] := by
  obtain ⟨hne, hfree⟩ := hw
  match w, hne with
  | c :: cs, _ =>
    have hc : isSpace c = false := hfree c (List.mem_cons_self c cs)
    rw [pySplit]
    simp only [hc, Bool.false_eq_true, not_false_eq_true, reduceDIte]
    have ht : (c :: cs).takeWhile (fun d => !isSpace d) = c :: cs := by
      rw [List.takeWhile_eq_self_iff]
      intro d hd; simp [hfree d hd]
    have hd : (c :: cs).dropWhile (fun d => !isSpace d) = [] := by
      rw [List.dropWhile_eq_nil_iff]
      intro d hd; simp [hfree d hd]
    rw [ht, hd, pySplit]

/-- Splitting a space-join of words recovers the words: the round-trip at the
heart of the chunk-reconstruction property. -/
theorem pySplit_joinSp : ∀ (ws : List PyStr), (∀ w ∈ ws, IsWord w) →
    pySplit (joinSp ws) = ws := by
  intro ws
  induction ws with
  | nil => intro _; simp [joinSp, pySplit]
  | cons w rest ih =>
    intro hall
    match rest with
    | [] =>
      rw [joinSp]
      exact pySplit_word w (hall w (by simp))
    | w' :: rest' =>
      rw [joinSp, pySplit_word_sp _ _ (hall w (by simp))]
      rw [ih (fun x hx => hall x (List.mem_cons_of_mem w hx))]

/-! ## Chunker (`PDFProcessor.chunk_text`, pdf_processor.py)

The source loops
```
start = 0
while start < len(words):
    end = start + chunk_size
    chunks.append(" ".join(words[start:end]))
    start = end - overlap
```
with Python `int` arithmetic (`start` may go negative when
`overlap > chunk_size`) and Python slice semantics.  The loop is modelled
with explicit fuel: `none` means the fuel ran out while the loop condition
still held, which for the non-positive-step configurations below is proved
for *every* fuel, i.e. the loop never terminates. -/

/-- Effective index of a Python slice bound `i` on a list of length `len`:
negative indices count from the end, and both ends clamp. -/
def pyIdx (len : Nat) (i : Int) : Nat :=
  if i < 0 then ((len : Int) + i).toNat else min i.toNat len

/-- Python `xs[s:e]`. -/
def pySlice {α : Type} (xs : List α) (s e : Int) : List α :=
  (xs.drop (pyIdx xs.length s)).take (pyIdx xs.length e - pyIdx xs.length s)

/-- The `while start < len(words)` loop of `chunk_text`, fuelled. -/
def chunkLoop (words : List PyStr) (chunk_size overlap : Nat) :
    Int → Nat → Option (List PyStr)
  | _, 0 => none
  | start, fuel + 1 =>
    if start < (words.length : Int) then
      match chunkLoop words chunk_size overlap
          ((start + (chunk_size : Int)) - (overlap : Int)) fuel with
      | some rest =>
          some (joinSp (pySlice words start (start + (chunk_size : Int))) :: rest)
      | none => none
    else
      some []

/-- `PDFProcessor.chunk_text(text, chunk_size, overlap)`.  `none` models a
non-terminating run of the `while` loop (the fuel `len(words) + 1` is proved
sufficient whenever `overlap < chunk_size`). -/
def chunk_text (text : PyStr) (chunk_size overlap : Nat) : Option (List PyStr) :=
  let words := pySplit text
  if words.length ≤ chunk_size then some [text]
  else chunkLoop words chunk_size overlap 0 (words.length + 1)

/-- Reference rendering of the loop for a positive step
`chunk_size - overlap`: structurally recursive on the remaining words. -/
def chunkRef (words : List PyStr) (chunk_size overlap : Nat)
    (h : overlap < chunk_size) (start : Nat) : List PyStr :=
  if hs : start < words.length then
    joinSp ((words.drop start).take chunk_size) ::
      chunkRef words chunk_size overlap h (start + (chunk_size - overlap))
  else []
termination_by words.length - start
decreasing_by omega

theorem pySlice_natCast (words : List PyStr) (start chunk_size : Nat) :
    pySlice words (start : Int) ((start : Int) + (chunk_size : Int)) =
      (words.drop start).take chunk_size := by
  unfold pySlice pyIdx
  rw [if_neg (by omega), if_neg (by omega)]
  rw [show ((start : Int) + (chunk_size : Int)) = ((start + chunk_size : Nat) : Int)
        by push_cast; ring]
  rw [Int.toNat_natCast, Int.toNat_natCast]
  rcases le_or_lt start words.length with hle | hlt
  · rw [min_eq_left hle]
    rcases le_or_lt (start + chunk_size) words.length with h3 | h3
    · rw [min_eq_left h3]
      congr 1
      omega
    · rw [min_eq_right h3.le]
      rw [List.take_of_length_le (by rw [List.length_drop]),
          List.take_of_length_le (by rw [List.length_drop]; omega)]
  · rw [min_eq_right hlt.le, min_eq_right (by omega), Nat.sub_self, List.take_zero,
        List.drop_of_length_le hlt.le, List.take_nil]

/-- With a positive step and enough fuel, the fuelled loop computes the
reference rendering. -/
theorem chunkLoop_eq_chunkRef (words : List PyStr) (cs ov : Nat)
    (h : ov < cs) : ∀ (fuel start : Nat),
    words.length < fuel + start → 1 ≤ fuel →
    chunkLoop words cs ov (start : Int) fuel =
      some (chunkRef words cs ov h start) := by
  intro fuel
  induction fuel with
  | zero => intro start hf h1; omega
  | succ n ih =>
    intro start hf _
    rw [chunkLoop, chunkRef]
    by_cases hs : start < words.length
    · have hcast : ((start : Int) + (cs : Int)) - (ov : Int)
          = ((start + (cs - ov) : Nat) : Int) := by omega
      rw [if_pos (by exact_mod_cast hs), hcast, ih _ (by omega) (by omega)]
      rw [dif_pos hs, pySlice_natCast]
    · rw [if_neg (by exact_mod_cast hs), dif_neg hs]

/-- The loop body's `start` strictly decreases the remaining length, so for
`overlap < chunk_size` the whole of `chunk_text` terminates and is given by
`chunkRef`. -/
theorem chunk_text_eq (text : PyStr) (cs ov : Nat) (h : ov < cs)
    (hlong : cs < (pySplit text).length) :
    chunk_text text cs ov = some (chunkRef (pySplit text) cs ov h 0) := by
  unfold chunk_text
  rw [if_neg (by omega)]
  exact_mod_cast chunkLoop_eq_chunkRef (pySplit text) cs ov h _ 0 (by omega) (by omega)

/-- When `overlap ≥ chunk_size` the loop's step `chunk_size - overlap` is not
positive, so once entered the loop never exits: every fuel is exhausted. -/
theorem chunkLoop_none_of_step_nonpos (words : List PyStr) (cs ov : Nat)
    (h : cs ≤ ov) : ∀ (fuel : Nat) (start : Int),
    start < (words.length : Int) →
    chunkLoop words cs ov start fuel = none := by
  intro fuel
  induction fuel with
  | zero => intro start _; rfl
  | succ n ih =>
    intro start hs
    rw [chunkLoop, if_pos hs]
    rw [ih ((start + (cs : Int)) - (ov : Int)) (by omega)]

/-- Window characterisation of the chunk list: the `i`-th chunk is the
space-join of the window of `chunk_size` words starting `i` steps of
`chunk_size - overlap` words in. -/
theorem chunkRef_getElem? (words : List PyStr) (cs ov : Nat)
    (h : ov < cs) (start i : Nat) :
    (chunkRef words cs ov h start)[i]? =
      if start + i * (cs - ov) < words.length then
        some (joinSp ((words.drop (start + i * (cs - ov))).take cs))
      else none := by
  rw [chunkRef]
  by_cases hs : start < words.length
  · rw [dif_pos hs]
    match i with
    | 0 => simp [hs]
    | i + 1 =>
      rw [List.getElem?_cons_succ,
        chunkRef_getElem? words cs ov h (start + (cs - ov)) i]
      have harith : start + (cs - ov) + i * (cs - ov)
          = start + (i + 1) * (cs - ov) := by ring
      rw [harith]
  · rw [dif_neg hs]
    have hub : ¬ (start + i * (cs - ov) < words.length) := by omega
    rw [if_neg hub]
    simp
termination_by words.length - start
decreasing_by omega

/-- Ghost reconstruction invariant: dropping the first `overlap` words of
every chunk from position `start` on and concatenating yields exactly the
original words from position `start + overlap` on. -/
theorem chunkRef_drop_flatten (words : List PyStr) (cs ov : Nat)
    (h : ov < cs) (hwords : ∀ w ∈ words, IsWord w) (start : Nat) :
    ((chunkRef words cs ov h start).map
        (fun c => (pySplit c).drop ov)).flatten = words.drop (start + ov) := by
  rw [chunkRef]
  by_cases hs : start < words.length
  · rw [dif_pos hs, List.map_cons, List.flatten_cons,
      chunkRef_drop_flatten words cs ov h hwords (start + (cs - ov))]
    rw [pySplit_joinSp _ (fun w hw =>
      hwords w (List.mem_of_mem_drop (List.mem_of_mem_take hw)))]
    have hfirst : List.drop ov ((words.drop start).take cs)
        = (words.drop (start + ov)).take (cs - ov) := by
      nth_rewrite 1 [show cs = ov + (cs - ov) by omega]
      rw [← List.take_drop, List.drop_drop]
    rw [hfirst, show start + (cs - ov) + ov = start + ov + (cs - ov) by omega]
    exact List.drop_take_append_drop words (start + ov) (cs - ov)
  · rw [dif_neg hs, List.map_nil, List.flatten_nil]
    rw [List.drop_of_length_le (by omega)]
termination_by words.length - start
decreasing_by omega

/-- C4: for a text whose word count exceeds `chunk_size` (and
`0 < overlap < chunk_size`), `chunk_text` produces the sliding windows of
`chunk_size` words whose starts advance by `chunk_size - overlap` per step
until the start reaches the end of the word sequence (so chunk `i + 1`
begins at `(i * step + chunk_size) - overlap`, i.e. `overlap` words before
chunk `i`'s window end, and the last chunk may be shorter), and
concatenating the first chunk with every later chunk minus its first
`overlap` words reconstructs the original word sequence exactly. -/
theorem chunk_text_window_reconstruction (text : PyStr) (cs ov : Nat)
    (h0 : 0 < ov) (h1 : ov < cs) (h2 : cs < (pySplit text).length) :
    ∃ cks : List PyStr, chunk_text text cs ov = some cks ∧
      (∀ i : Nat, cks[i]? =
        if i * (cs - ov) < (pySplit text).length then
          some (joinSp (((pySplit text).drop (i * (cs - ov))).take cs))
        else none) ∧
      (∃ c0 rest, cks = c0 :: rest ∧
        pySplit c0 ++ (rest.map (fun c => (pySplit c).drop ov)).flatten
          = pySplit text) := by
  refine ⟨chunkRef (pySplit text) cs ov h1 0, chunk_text_eq text cs ov h1 h2,
    ?_, ?_⟩
  · intro i
    have := chunkRef_getElem? (pySplit text) cs ov h1 0 i
    simpa using this
  · have hlen : 0 < (pySplit text).length := by omega
    rw [chunkRef, dif_pos hlen]
    refine ⟨_, _, rfl, ?_⟩
    rw [List.drop_zero, pySplit_joinSp _ (fun w hw =>
      isWord_pySplit text w (List.mem_of_mem_take hw))]
    rw [chunkRef_drop_flatten (pySplit text) cs ov h1 (isWord_pySplit text),
      Nat.zero_add, show cs - ov + ov = cs by omega, List.take_append_drop]

/-- Concrete evaluation of `pySplit` on the running example. -/
theorem pySplit_example :
    pySplit (pyStr "a b c d e") = [['a'], ['b'], ['c'], ['d'], ['e']] := by
  simp [pySplit, pyStr, isSpace]

/-- Witness for the chunk-window/reconstruction theorem at
`text = "a b c d e"`, `chunk_size = 2`, `overlap = 1`. -/
theorem chunk_text_window_reconstruction_witness :
    0 < 1 ∧ 1 < 2 ∧ 2 < (pySplit (pyStr "a b c d e")).length ∧
      (∃ cks : List PyStr, chunk_text (pyStr "a b c d e") 2 1 = some cks ∧
        (∀ i : Nat, cks[i]? =
          if i * (2 - 1) < (pySplit (pyStr "a b c d e")).length then
            some (joinSp (((pySplit (pyStr "a b c d e")).drop (i * (2 - 1))).take 2))
          else none) ∧
        (∃ c0 rest, cks = c0 :: rest ∧
          pySplit c0 ++ (rest.map (fun c => (pySplit c).drop 1)).flatten
            = pySplit (pyStr "a b c d e"))) :=
  ⟨Nat.zero_lt_one, Nat.one_lt_two, by rw [pySplit_example]; decide,
    chunk_text_window_reconstruction (pyStr "a b c d e") 2 1
      Nat.zero_lt_one Nat.one_lt_two (by rw [pySplit_example]; decide)⟩

/-- C10: with `overlap < chunk_size` the `while` loop of `chunk_text`
terminates (the fuel `len(words) + 1` always suffices because the window
start strictly increases by `chunk_size - overlap > 0` each iteration), and
the precondition is necessary: when `overlap ≥ chunk_size` the step is not
positive and, once the loop is entered (word count exceeds `chunk_size`), no
amount of fuel reaches the exit condition. -/
theorem chunk_text_terminates_iff_step_pos (text : PyStr) (cs ov : Nat) :
    (ov < cs → (chunk_text text cs ov).isSome) ∧
    (cs ≤ ov → cs < (pySplit text).length →
      ∀ fuel : Nat, chunkLoop (pySplit text) cs ov 0 fuel = none) := by
  constructor
  · intro h
    by_cases hlong : cs < (pySplit text).length
    · rw [chunk_text_eq text cs ov h hlong]
      rfl
    · unfold chunk_text
      rw [if_pos (by omega)]
      rfl
  · intro h hlong fuel
    exact chunkLoop_none_of_step_nonpos (pySplit text) cs ov h fuel 0
      (by omega)

/-- Witness for the termination theorem: `chunk_text "a b c d e" 2 1`
terminates, while with `overlap = chunk_size = 2` the loop exhausts any
fuel. -/
theorem chunk_text_terminates_iff_step_pos_witness :
    (chunk_text (pyStr "a b c d e") 2 1).isSome ∧
      chunkLoop (pySplit (pyStr "a b c d e")) 2 2 0 1000 = none :=
  ⟨(chunk_text_terminates_iff_step_pos (pyStr "a b c d e") 2 1).1
      Nat.one_lt_two,
    (chunk_text_terminates_iff_step_pos (pyStr "a b c d e") 2 2).2
      (le_refl 2) (by rw [pySplit_example]; decide) 1000⟩

/-! ## PDF documents and the database (database.py)

A PDF is either readable (a list of pages with their text, dimensions,
render outcome and embedded-image objects) or unreadable (`fitz.open`
raises).  The relational store is a record of document rows and image rows;
`gen_random_uuid()` is idealised as a fresh-id counter.  A fault function
`faults : Nat → Bool`, indexed by a running attempt counter, models the
possibility that an individual insert's transaction raises (and is rolled
back by `get_db`). -/

/-- An embedded raster image object of a PDF page (`page.get_images` entry
plus the outcomes of the external calls made while extracting it). -/
structure PdfImage where
  /-- `doc.extract_image(xref)` succeeds. -/
  xrefOk : Bool
  /-- The raw image bytes (`base_image["image"]`), the md5 input. -/
  bytes : List Nat
  /-- `PIL.Image.open` / `convert` / `save` succeed. -/
  openOk : Bool
  width : Nat
  height : Nat
  /-- Byte size of the saved JPEG file. -/
  savedSize : Nat
deriving DecidableEq

/-- A page of a readable PDF. -/
structure PdfPage where
  text : PyStr
  width : Nat
  height : Nat
  /-- `page.get_pixmap` / PIL conversion / JPEG save succeed. -/
  renderOk : Bool
  renderW : Nat
  renderH : Nat
  /-- Byte size of the saved full-page JPEG. -/
  renderSize : Nat
  images : List PdfImage
deriving DecidableEq

/-- A readable PDF document: pages plus `doc.metadata` and file size. -/
structure PdfDoc where
  pages : List PdfPage
  title : String
  author : String
  subject : String
  creator : String
  producer : String
  creationDate : String
  modDate : String
  fileSize : Nat

/-- A PDF file: readable contents, or the error `fitz.open` raises. -/
inductive Pdf where
  | ok (d : PdfDoc) : Pdf
  | unreadable (msg : String) : Pdf

/-- A row of the `documents` table (the fields the service touches). -/
structure DocRow where
  status : String
  processing_error : Option String
  page_count : Nat
  image_count : Nat
deriving DecidableEq

/-- A row of the `document_images` table as inserted by
`insert_document_image` (`format` is the constant `'jpg'` and
`ocr_status` starts `'pending'`). -/
structure ImageRow where
  id : Nat
  document_id : String
  page_number : Nat
  image_index : Nat
  storage_path : String
  width : Nat
  height : Nat
  file_size : Nat
  ocr_status : String
deriving DecidableEq

/-- Database state. -/
structure Db where
  docs : String → DocRow
  images : List ImageRow
  /-- Fresh-id supply (`gen_random_uuid` idealised). -/
  nextId : Nat
  /-- Running count of insert attempts, the index into the fault model. -/
  attempt : Nat

/-- `update_document_status`: sets status and error, commits at once. -/
def update_document_status (db : Db) (document_id status : String)
    (error : Option String) : Db :=
  { db with docs := fun i => if i = document_id then
      { db.docs i with status := status, processing_error := error }
    else db.docs i }

/-- `update_document_counts`. -/
def update_document_counts (db : Db) (document_id : String)
    (page_count image_count : Nat) : Db :=
  { db with docs := fun i => if i = document_id then
      { db.docs i with page_count := page_count, image_count := image_count }
    else db.docs i }

/-- `insert_document_image`: one row, inserted and committed in its own
transaction.  `none` models the statement raising — the transaction for this
single row rolls back and nothing is added. -/
def insert_document_image (faults : Nat → Bool) (db : Db)
    (document_id : String) (page_number image_index : Nat)
    (storage_path : String) (width height file_size : Nat) :
    Option Nat × Db :=
  if faults db.attempt then
    (none, { db with attempt := db.attempt + 1 })
  else
    (some db.nextId,
      { db with
        images := db.images ++
          [{ id := db.nextId, document_id := document_id,
             page_number := page_number, image_index := image_index,
             storage_path := storage_path, width := width, height := height,
             file_size := file_size, ocr_status := "pending" }],
        nextId := db.nextId + 1,
        attempt := db.attempt + 1 })

/-! ## Text extraction (`PDFProcessor`, pdf_processor.py) -/

/-- `PDFProcessor.get_word_counts`: fast pass, `{page_num+1: len(text.split())}`;
any exception is caught and `{}` returned. -/
def get_word_counts (pdf : Pdf) : List (Nat × Nat) :=
  match pdf with
  | .unreadable _ => []
  | .ok d => d.pages.enum.map (fun p => (p.1 + 1, wordCount p.2.text))

/-- Needle occurs at the head of the haystack. -/
def startsWith : PyStr → PyStr → Bool
  | _, [] => true
  | [], _ :: _ => false
  | c :: cs, d :: ds => c = d && startsWith cs ds

/-- Python `needle in haystack` for strings. -/
def containsSub (hay needle : PyStr) : Bool :=
  match hay with
  | [] => needle.isEmpty
  | _ :: t => startsWith hay needle || containsSub t needle

/-- The keyword table of `PDFProcessor._detect_sap_module`, in source
(insertion) order. -/
def sapModules : List (String × List String) :=
  [("MM", ["material management", "procurement", "purchasing",
           "mm transaction"]),
   ("SD", ["sales and distribution", "sales order", "delivery", "billing"]),
   ("FI", ["financial accounting", "general ledger", "accounts payable",
           "accounts receivable"]),
   ("CO", ["controlling", "cost center", "profit center", "internal order"]),
   ("PP", ["production planning", "manufacturing", "work order", "bom"]),
   ("QM", ["quality management", "inspection", "quality notification"]),
   ("PM", ["plant maintenance", "equipment", "work order", "maintenance"]),
   ("HR", ["human resources", "personnel", "payroll",
           "organizational management"]),
   ("WM", ["warehouse management", "storage location", "transfer order"]),
   ("PS", ["project system", "wbs", "project structure"])]

/-- `PDFProcessor._detect_sap_module`: first module one of whose keywords
occurs in the lowercased text, else `"Unknown"`. -/
def detect_sap_module (text : PyStr) : String :=
  let lower := text.map Char.toLower
  match sapModules.find? (fun m =>
      m.2.any (fun kw => containsSub lower (pyStr kw))) with
  | some m => m.1
  | none => "Unknown"

/-- One entry of `extract_text`'s `pages_data`. -/
structure PageData where
  page_number : Nat
  text : PyStr
  word_count : Nat
  width : Nat
  height : Nat
  sap_module : String
deriving DecidableEq

/-- The page-limit error message raised by `extract_text`. -/
def pageLimitMsg (pages maxPages : Nat) : String :=
  s!"PDF has {pages} pages, maximum is {maxPages}"

/-- `PDFProcessor.extract_text`: per-page text/word-count/dimensions/module,
failing when the page count exceeds `PDF_MAX_PAGES` (or when the file is
unreadable). -/
def extract_text (maxPages : Nat) (pdf : Pdf) :
    Except String (List PageData × List (Nat × Nat)) :=
  match pdf with
  | .unreadable m => .error m
  | .ok d =>
    if d.pages.length > maxPages then
      .error (pageLimitMsg d.pages.length maxPages)
    else
      .ok (d.pages.enum.map (fun p =>
            { page_number := p.1 + 1, text := p.2.text,
              word_count := wordCount p.2.text,
              width := p.2.width, height := p.2.height,
              sap_module := detect_sap_module p.2.text }),
           d.pages.enum.map (fun p => (p.1 + 1, wordCount p.2.text)))

/-- `get_metadata`'s result record. -/
structure Metadata where
  title : String
  author : String
  subject : String
  creator : String
  producer : String
  creation_date : String
  modification_date : String
  page_count : Nat
  file_size : Nat
deriving DecidableEq

/-- `PDFProcessor.get_metadata`. -/
def get_metadata (pdf : Pdf) : Except String Metadata :=
  match pdf with
  | .unreadable m => .error m
  | .ok d =>
    .ok { title := d.title, author := d.author, subject := d.subject,
          creator := d.creator, producer := d.producer,
          creation_date := d.creationDate, modification_date := d.modDate,
          page_count := d.pages.length, file_size := d.fileSize }

/-- One chunk entry of `process_document`'s result. -/
structure ChunkData where
  content : PyStr
  page_number : Nat
  chunk_index : Nat
deriving DecidableEq

/-- Python `"\n\n".join(texts)`. -/
def joinNN : List PyStr → PyStr
  | [] => []
  | [t] => t
  | t :: t' :: ts => t ++ '\n' :: '\n' :: joinNN (t' :: ts)

/-- `process_document`'s success payload. -/
structure ProcessResult where
  document_id : String
  metadata : Metadata
  text_content : PyStr
  page_count : Nat
  word_counts : List (Nat × Nat)
  chunks : List ChunkData
  total_words : Nat
  success : Bool

/-- `PDFProcessor.process_document`: mark processing, extract metadata and
text, build chunks, update counts; on any exception mark the document
`failed` with the error text and re-raise. -/
def process_document (maxPages : Nat) (document_id : String) (pdf : Pdf)
    (db : Db) : Except String ProcessResult × Db :=
  let db1 := update_document_status db document_id "processing" none
  match get_metadata pdf with
  | .error e => (.error e, update_document_status db1 document_id "failed" (some e))
  | .ok md =>
    match extract_text maxPages pdf with
    | .error e => (.error e, update_document_status db1 document_id "failed" (some e))
    | .ok (pages_data, word_counts) =>
      let chunks := pages_data.flatMap (fun p =>
        if p.word_count > 0 then
          -- 50 < 500, so `chunk_text` always terminates here; `[]` is dead.
          ((chunk_text p.text 500 50).getD []).enum.map (fun c =>
            { content := c.2, page_number := p.page_number,
              chunk_index := c.1 })
        else [])
      let db2 := update_document_counts db1 document_id md.page_count 0
      (.ok { document_id := document_id, metadata := md,
             text_content := joinNN (pages_data.map (·.text)),
             page_count := pages_data.length,
             word_counts := word_counts, chunks := chunks,
             total_words := (pages_data.map (·.word_count)).sum,
             success := true },
       db2)

/-- C9: whenever `extract_text` succeeds, the fast pass `get_word_counts`
returns exactly the word-count mapping that `extract_text` returns (both
tokenise each page's text by whitespace and key by 1-indexed page number).
-/
theorem get_word_counts_agrees_with_extract_text (maxPages : Nat)
    (pdf : Pdf) (pages : List PageData) (wcs : List (Nat × Nat))
    (h : extract_text maxPages pdf = .ok (pages, wcs)) :
    get_word_counts pdf = wcs := by
  cases pdf with
  | unreadable m => exact absurd h (by simp [extract_text])
  | ok d =>
    simp only [extract_text] at h
    by_cases hl : d.pages.length > maxPages
    · rw [if_pos hl] at h
      exact absurd h (by simp)
    · rw [if_neg hl] at h
      simp only [Except.ok.injEq, Prod.mk.injEq] at h
      rw [get_word_counts, h.2]

/-- Sample one-page PDF for the word-count witness. -/
def pdfC9 : Pdf :=
  .ok { pages := [{ text := pyStr "hello world", width := 612, height := 792,
                    renderOk := true, renderW := 850, renderH := 1100,
                    renderSize := 1000, images := [] }],
        title := "t", author := "a", subject := "", creator := "",
        producer := "", creationDate := "", modDate := "", fileSize := 10 }

/-- The pages of `pdfC9` (empty when unreadable). -/
def pdfC9pages : List PdfPage :=
  match pdfC9 with
  | .ok d => d.pages
  | .unreadable _ => []

/-- Witness: on `pdfC9`, `extract_text` succeeds and `get_word_counts`
returns the same mapping. -/
theorem get_word_counts_agrees_with_extract_text_witness :
    extract_text 5 pdfC9 =
      .ok (pdfC9pages.enum.map (fun p =>
             { page_number := p.1 + 1, text := p.2.text,
               word_count := wordCount p.2.text,
               width := p.2.width, height := p.2.height,
               sap_module := detect_sap_module p.2.text }),
           pdfC9pages.enum.map (fun p => (p.1 + 1, wordCount p.2.text))) ∧
    get_word_counts pdfC9 =
      pdfC9pages.enum.map (fun p => (p.1 + 1, wordCount p.2.text)) :=
  ⟨rfl, get_word_counts_agrees_with_extract_text 5 pdfC9 _ _ rfl⟩

theorem update_document_status_docs_self (db : Db) (i s : String)
    (e : Option String) :
    (update_document_status db i s e).docs i
      = { db.docs i with status := s, processing_error := e } := by
  simp [update_document_status]

/-- C7: `process_document` fails with the page-limit error whenever the
page count exceeds the configured ceiling, and on any failure it marks the
document `failed` with the error message recorded. -/
theorem process_document_failure_marks_failed (maxPages : Nat)
    (document_id : String) (pdf : Pdf) (db : Db) :
    (∀ d : PdfDoc, pdf = .ok d → maxPages < d.pages.length →
      (process_document maxPages document_id pdf db).1
        = .error (pageLimitMsg d.pages.length maxPages)) ∧
    (∀ e : String,
      (process_document maxPages document_id pdf db).1 = .error e →
      ((process_document maxPages document_id pdf db).2.docs
          document_id).status = "failed" ∧
      ((process_document maxPages document_id pdf db).2.docs
          document_id).processing_error = some e) := by
  constructor
  · intro d hd hlim
    subst hd
    have hgt : d.pages.length > maxPages := hlim
    simp [process_document, get_metadata, extract_text, hgt]
  · intro e he
    cases pdf with
    | unreadable m =>
      simp only [process_document, get_metadata, Except.error.injEq] at he ⊢
      subst he
      rw [update_document_status_docs_self]
      exact ⟨rfl, rfl⟩
    | ok d =>
      by_cases hl : d.pages.length > maxPages
      · simp only [process_document, get_metadata, extract_text, hl, if_true,
          Except.error.injEq] at he ⊢
        subst he
        rw [update_document_status_docs_self]
        exact ⟨rfl, rfl⟩
      · simp only [process_document, get_metadata, extract_text, hl,
          if_false] at he
        exact absurd he (by simp)

/-- Sample two-page PDF and fresh database for the page-limit witness. -/
def pdfC7 : Pdf :=
  .ok { pages := [{ text := [], width := 612, height := 792,
                    renderOk := true, renderW := 850, renderH := 1100,
                    renderSize := 1000, images := [] },
                  { text := [], width := 612, height := 792,
                    renderOk := true, renderW := 850, renderH := 1100,
                    renderSize := 1000, images := [] }],
        title := "", author := "", subject := "", creator := "",
        producer := "", creationDate := "", modDate := "", fileSize := 10 }

/-- A fresh database whose every document row is `pending`. -/
def db0 : Db :=
  { docs := fun _ => { status := "pending", processing_error := none,
                       page_count := 0, image_count := 0 },
    images := [], nextId := 0, attempt := 0 }

/-- Witness: a 2-page PDF against a 1-page ceiling yields the page-limit
error and the document row ends `failed` with that error recorded. -/
theorem process_document_failure_marks_failed_witness :
    (process_document 1 "doc1" pdfC7 db0).1 = .error (pageLimitMsg 2 1) ∧
    ((process_document 1 "doc1" pdfC7 db0).2.docs "doc1").status = "failed" ∧
    ((process_document 1 "doc1" pdfC7 db0).2.docs "doc1").processing_error
      = some (pageLimitMsg 2 1) := by
  have h := process_document_failure_marks_failed 1 "doc1" pdfC7 db0
  have h1 := h.1 _ rfl (by decide)
  exact ⟨h1, (h.2 _ h1).1, (h.2 _ h1).2⟩

/-! ## Image extraction (`ImageService`, image_service.py)

`extract_all_images` renders low-text pages (word count below the threshold
50) as images and then extracts embedded images, deduplicating the latter by
md5 content hash.  Every produced image is persisted immediately through
`insert_document_image` — one row, one transaction — and the generated id is
placed in the returned descriptor.  Per-image failures (render, PIL, or the
insert itself) are caught and that image is skipped.

The md5 content hash is idealised as the byte content itself (an injective
hash).  External failure points are modelled as Boolean fields of the page /
image objects, and insert failures by the `faults` function. -/

/-- An image descriptor as returned by `extract_all_images` (the Python
dict). -/
structure ImgDesc where
  id : Nat
  page_number : Nat
  image_index : Nat
  storage_path : String
  width : Nat
  height : Nat
  file_size : Nat
  type : String
deriving DecidableEq

/-- Python `dict.get(k, 0)` for the word-count mapping. -/
def dictGet (d : List (Nat × Nat)) (k : Nat) : Nat :=
  match d.find? (fun p => p.1 = k) with
  | some p => p.2
  | none => 0

/-- Storage path of a full-page render (`page_num` 0-indexed, as in the
source). -/
def renderPagePath (document_id : String) (page_num : Nat) : String :=
  s!"{document_id}_p{page_num + 1}_full.jpg"

/-- The row `insert_document_image` writes for a given returned
descriptor. -/
def descToRow (document_id : String) (d : ImgDesc) : ImageRow :=
  { id := d.id, document_id := document_id, page_number := d.page_number,
    image_index := d.image_index, storage_path := d.storage_path,
    width := d.width, height := d.height, file_size := d.file_size,
    ocr_status := "pending" }

/-- `ImageService._render_page_as_image`: render one page, save it, insert
its row (committed immediately), return the descriptor with the generated
id; any exception (render or insert) is caught and `None` returned. -/
def _render_page_as_image (faults : Nat → Bool) (pg : PdfPage)
    (page_num : Nat) (document_id : String) (db : Db) :
    Option ImgDesc × Db :=
  if pg.renderOk then
    match insert_document_image faults db document_id (page_num + 1) 0
        (renderPagePath document_id page_num) pg.renderW pg.renderH
        pg.renderSize with
    | (some image_id, db') =>
      (some { id := image_id, page_number := page_num + 1, image_index := 0,
              storage_path := renderPagePath document_id page_num,
              width := pg.renderW, height := pg.renderH,
              file_size := pg.renderSize, type := "page_render" }, db')
    | (none, db') => (none, db')
  else (none, db)

/-- STEP 1 of `extract_all_images`: walk the pages in order, rendering each
page whose word count is below the threshold 50; failed renders are skipped
(`continue`). -/
def renderPages (faults : Nat → Bool) (document_id : String)
    (wc : List (Nat × Nat)) : List (Nat × PdfPage) → Db → List ImgDesc × Db
  | [], db => ([], db)
  | (i, pg) :: rest, db =>
    if dictGet wc (i + 1) < 50 then
      match _render_page_as_image faults pg i document_id db with
      | (some dsc, db') =>
        let r := renderPages faults document_id wc rest db'
        (dsc :: r.1, r.2)
      | (none, db') => renderPages faults document_id wc rest db'
    else renderPages faults document_id wc rest db

/-- Storage path of an embedded image (0-indexed `page_num` and
`img_index`, as in the source). -/
def embImgPath (document_id : String) (page_num img_index : Nat) : String :=
  s!"{document_id}_p{page_num + 1}_img{img_index + 1}.jpg"

/-- State threaded through `_extract_embedded_images`: the accumulated
descriptors, the `image_hashes` set, and the database.  `emitted` is ghost
instrumentation for verification only: it records, in order, the content
hash of each appended (= persisted) embedded descriptor. -/
structure EmbSt where
  descs : List ImgDesc
  seen : List (List Nat)
  emitted : List (List Nat)
  db : Db

/-- Processing of one entry of `page.get_images(full=True)`: extract bytes,
hash, dedup against `seen`, open/size-filter, save, insert (committed
immediately); any exception is caught and the image skipped. -/
def embStep (faults : Nat → Bool) (document_id : String)
    (page_num img_index : Nat) (img : PdfImage) (st : EmbSt) : EmbSt :=
  if img.xrefOk then
    -- the md5 of the raw bytes, idealised as the bytes themselves
    let image_hash := img.bytes
    if image_hash ∈ st.seen then st
    else
      let st1 := { st with seen := image_hash :: st.seen }
      -- `openOk` covers `Image.open`, the RGB conversion and the JPEG
      -- save; a failure at any of them is caught after the hash was
      -- already recorded, exactly as in the source.
      if img.openOk then
        if img.width < 100 ∨ img.height < 100 then st1
        else
          match insert_document_image faults st1.db document_id
              (page_num + 1) (img_index + 1)
              (embImgPath document_id page_num img_index)
              img.width img.height img.savedSize with
          | (some image_id, db') =>
            { st1 with
              descs := st1.descs ++
                [{ id := image_id, page_number := page_num + 1,
                   image_index := img_index + 1,
                   storage_path := embImgPath document_id page_num img_index,
                   width := img.width, height := img.height,
                   file_size := img.savedSize, type := "embedded" }],
              emitted := st1.emitted ++ [image_hash],
              db := db' }
          | (none, db') => { st1 with db := db' }
      else st1
  else st

/-- Fold `embStep` over the (enumerated) images of one page. -/
def embImgs (faults : Nat → Bool) (document_id : String) (page_num : Nat) :
    List (Nat × PdfImage) → EmbSt → EmbSt
  | [], st => st
  | (j, img) :: rest, st =>
    embImgs faults document_id page_num rest
      (embStep faults document_id page_num j img st)

/-- `ImageService._extract_embedded_images`: scan every page's embedded
images, with the hash set shared across pages. -/
def embPages (faults : Nat → Bool) (document_id : String) :
    List (Nat × PdfPage) → EmbSt → EmbSt
  | [], st => st
  | (i, pg) :: rest, st =>
    embPages faults document_id rest
      (embImgs faults document_id i pg.images.enum st)

/-- `ImageService.extract_all_images`: page renders for low-text pages
(STEP 1), then embedded images (STEP 2), concatenated in that order.  If
`fitz.open` fails the exception propagates (`raise`). -/
def extract_all_images (faults : Nat → Bool) (pdf : Pdf)
    (document_id : String) (pages_with_text_count : List (Nat × Nat))
    (db : Db) : Except String (List ImgDesc) × Db :=
  match pdf with
  | .unreadable m => (.error m, db)
  | .ok d =>
    let r := renderPages faults document_id pages_with_text_count
      d.pages.enum db
    let st := embPages faults document_id d.pages.enum
      { descs := [], seen := [], emitted := [], db := r.2 }
    (.ok (r.1 ++ st.descs), st.db)

/-! ### Row/descriptor correspondence (per-row persistence) -/

theorem renderPages_images (fts : Nat → Bool) (document_id : String)
    (wc : List (Nat × Nat)) : ∀ (pages : List (Nat × PdfPage)) (db : Db),
    (renderPages fts document_id wc pages db).2.images
      = db.images ++
        ((renderPages fts document_id wc pages db).1).map
          (descToRow document_id) := by
  intro pages
  induction pages with
  | nil => intro db; simp [renderPages]
  | cons p rest ih =>
    intro db
    obtain ⟨i, pg⟩ := p
    by_cases hlt : dictGet wc (i + 1) < 50
    · simp only [renderPages, hlt, if_true]
      unfold _render_page_as_image insert_document_image
      by_cases hrok : pg.renderOk
      · simp only [hrok, if_true]
        by_cases hft : fts db.attempt
        · simp only [hft, if_true]
          exact ih _
        · simp only [hft, Bool.false_eq_true, if_false]
          rw [ih]
          simp [descToRow]
      · simp only [hrok, Bool.false_eq_true, if_false]
        exact ih _
    · simp only [renderPages, hlt, if_false]
      exact ih _

theorem embStep_images (fts : Nat → Bool) (document_id : String)
    (page_num img_index : Nat) (img : PdfImage) (st : EmbSt)
    (K : List ImageRow)
    (h : st.db.images = K ++ st.descs.map (descToRow document_id)) :
    (embStep fts document_id page_num img_index img st).db.images
      = K ++ (embStep fts document_id page_num img_index img st).descs.map
          (descToRow document_id) := by
  unfold embStep insert_document_image
  by_cases hx : img.xrefOk
  · simp only [hx, if_true]
    by_cases hseen : img.bytes ∈ st.seen
    · simp only [hseen, if_true]; exact h
    · simp only [hseen, if_false]
      by_cases hopen : img.openOk
      · simp only [hopen, if_true]
        by_cases hsmall : img.width < 100 ∨ img.height < 100
        · simp only [hsmall, if_true]; exact h
        · simp only [hsmall, if_false]
          by_cases hft : fts st.db.attempt
          · simp only [hft, if_true]; exact h
          · simp only [hft, Bool.false_eq_true, if_false]
            rw [h]
            simp [descToRow]
      · simp only [hopen, Bool.false_eq_true, if_false]; exact h
  · simp only [hx, Bool.false_eq_true, if_false]; exact h

theorem embImgs_images (fts : Nat → Bool) (document_id : String)
    (page_num : Nat) : ∀ (imgs : List (Nat × PdfImage)) (st : EmbSt)
    (K : List ImageRow),
    st.db.images = K ++ st.descs.map (descToRow document_id) →
    (embImgs fts document_id page_num imgs st).db.images
      = K ++ (embImgs fts document_id page_num imgs st).descs.map
          (descToRow document_id) := by
  intro imgs
  induction imgs with
  | nil => intro st K h; exact h
  | cons p rest ih =>
    intro st K h
    obtain ⟨j, img⟩ := p
    exact ih _ K (embStep_images fts document_id page_num j img st K h)

theorem embPages_images (fts : Nat → Bool) (document_id : String) :
    ∀ (pages : List (Nat × PdfPage)) (st : EmbSt) (K : List ImageRow),
    st.db.images = K ++ st.descs.map (descToRow document_id) →
    (embPages fts document_id pages st).db.images
      = K ++ (embPages fts document_id pages st).descs.map
          (descToRow document_id) := by
  intro pages
  induction pages with
  | nil => intro st K h; exact h
  | cons p rest ih =>
    intro st K h
    obtain ⟨i, pg⟩ := p
    exact ih _ K (embImgs_images fts document_id i pg.images.enum st K h)

/-- C1 (amended): row/descriptor correspondence for a whole extraction
run.  The image rows added to the database are exactly, in order, the rows
of the returned descriptors (page renders first, then embedded images),
each row carrying the id placed in its descriptor.  Persistence is per row
— each row is written and committed in its own transaction at the moment
its image is produced, a failed insert skips only its own image, and rows
already written remain visible; there is no run-level atomicity. -/
theorem extract_all_images_rows_match (fts : Nat → Bool) (pdf : Pdf)
    (document_id : String) (wc : List (Nat × Nat)) (db : Db)
    (res : List ImgDesc) (db' : Db)
    (h : extract_all_images fts pdf document_id wc db = (.ok res, db')) :
    db'.images = db.images ++ res.map (descToRow document_id) := by
  cases pdf with
  | unreadable m => exact absurd h (by simp [extract_all_images])
  | ok d =>
    simp only [extract_all_images, Prod.mk.injEq, Except.ok.injEq] at h
    obtain ⟨hres, hdb⟩ := h
    subst hres
    subst hdb
    rw [embPages_images fts document_id d.pages.enum _
        (renderPages fts document_id wc d.pages.enum db).2.images (by simp)]
    rw [renderPages_images]
    simp

/-- A low-text page (no words, render succeeds, no embedded images). -/
def lowPage : PdfPage :=
  { text := [], width := 612, height := 792, renderOk := true,
    renderW := 850, renderH := 1100, renderSize := 1000, images := [] }

/-- A 2-page, all-low-text PDF used to exhibit partial persistence. -/
def pdfC1 : Pdf :=
  .ok { pages := [lowPage, lowPage], title := "", author := "", subject := "",
        creator := "", producer := "", creationDate := "", modDate := "",
        fileSize := 0 }

/-- The claim as stated by the specification: `extract_all_images` hands
the whole run to the persistence batcher as one atomic unit, so if
persisting the run fails (some insert attempt during the run did not
produce a row), then no row from the run is visible afterwards. -/
def runPersistedAtomically : Prop :=
  ∀ (faults : Nat → Bool) (pdf : Pdf) (document_id : String)
    (wc : List (Nat × Nat)) (db : Db) (res : List ImgDesc) (db' : Db),
    extract_all_images faults pdf document_id wc db = (.ok res, db') →
    db'.attempt - db.attempt ≠ db'.images.length - db.images.length →
    db'.images = db.images

/-- C1 (counterexample): run-level atomicity fails on the code.  With two
low-text pages and a database fault on the second insert, the run makes two
insert attempts, only one row results — persisting the run failed — yet the
first page's row is visible (and is returned as a descriptor).  Each row is
committed by `insert_document_image` in its own transaction, so there is no
single batched unit. -/
theorem extract_all_images_not_atomic : ¬ runPersistedAtomically := by
  intro hA
  have hrun : extract_all_images (fun n => n == 1) pdfC1 "doc1" [] db0
      = (.ok [{ id := 0, page_number := 1, image_index := 0,
                storage_path := "doc1_p1_full.jpg", width := 850,
                height := 1100, file_size := 1000, type := "page_render" }],
         (extract_all_images (fun n => n == 1) pdfC1 "doc1" [] db0).2) := by
    refine Prod.ext ?_ rfl
    rfl
  have h := hA (fun n => n == 1) pdfC1 "doc1" [] db0 _ _ hrun (by decide)
  have himg : (extract_all_images (fun n => n == 1) pdfC1 "doc1" [] db0).2.images
      ≠ db0.images := by decide
  exact himg h

/-- Witness for the amended C1 theorem, at the same faulty run: the single
row added is exactly the row of the single returned descriptor. -/
theorem extract_all_images_rows_match_witness :
    extract_all_images (fun n => n == 1) pdfC1 "doc1" [] db0
      = (.ok [{ id := 0, page_number := 1, image_index := 0,
                storage_path := "doc1_p1_full.jpg", width := 850,
                height := 1100, file_size := 1000, type := "page_render" }],
         (extract_all_images (fun n => n == 1) pdfC1 "doc1" [] db0).2) ∧
    (extract_all_images (fun n => n == 1) pdfC1 "doc1" [] db0).2.images
      = db0.images ++
        [ImgDesc.mk 0 1 0 "doc1_p1_full.jpg" 850 1100 1000
          "page_render"].map (descToRow "doc1") := by
  have hrun : extract_all_images (fun n => n == 1) pdfC1 "doc1" [] db0
      = (.ok [{ id := 0, page_number := 1, image_index := 0,
                storage_path := "doc1_p1_full.jpg", width := 850,
                height := 1100, file_size := 1000, type := "page_render" }],
         (extract_all_images (fun n => n == 1) pdfC1 "doc1" [] db0).2) := by
    refine Prod.ext ?_ rfl
    rfl
  exact ⟨hrun, extract_all_images_rows_match (fun n => n == 1) pdfC1 "doc1"
    [] db0 _ _ hrun⟩

/-! ### Content-hash deduplication (C6) -/

/-- Dedup invariant: the recorded hashes of emitted embedded images are
pairwise distinct, all belong to the `image_hashes` set, and there is
exactly one of them per emitted descriptor. -/
def EmbInv (st : EmbSt) : Prop :=
  st.emitted.Nodup ∧ (∀ h ∈ st.emitted, h ∈ st.seen) ∧
    st.emitted.length = st.descs.length

theorem embStep_inv (fts : Nat → Bool) (document_id : String)
    (page_num img_index : Nat) (img : PdfImage) (st : EmbSt)
    (hinv : EmbInv st) :
    EmbInv (embStep fts document_id page_num img_index img st) := by
  obtain ⟨hnd, hsub, hlen⟩ := hinv
  unfold embStep insert_document_image
  by_cases hx : img.xrefOk
  · simp only [hx, if_true]
    by_cases hseen : img.bytes ∈ st.seen
    · simp only [hseen, if_true]; exact ⟨hnd, hsub, hlen⟩
    · simp only [hseen, if_false]
      by_cases hopen : img.openOk
      · simp only [hopen, if_true]
        by_cases hsmall : img.width < 100 ∨ img.height < 100
        · simp only [hsmall, if_true]
          exact ⟨hnd, fun h hm => List.mem_cons_of_mem _ (hsub h hm), hlen⟩
        · simp only [hsmall, if_false]
          by_cases hft : fts st.db.attempt
          · simp only [hft, if_true]
            exact ⟨hnd, fun h hm => List.mem_cons_of_mem _ (hsub h hm), hlen⟩
          · simp only [hft, Bool.false_eq_true, if_false]
            refine ⟨?_, ?_, ?_⟩
            · rw [List.nodup_append]
              refine ⟨hnd, List.nodup_singleton _, ?_⟩
              rw [List.disjoint_singleton]
              intro hmem
              exact hseen (hsub _ hmem)
            · intro h hm
              rcases List.mem_append.mp hm with hl | hr
              · exact List.mem_cons_of_mem _ (hsub h hl)
              · rw [List.mem_singleton] at hr
                subst hr
                exact List.mem_cons_self _ _
            · simp [hlen]
      · simp only [hopen, Bool.false_eq_true, if_false]
        exact ⟨hnd, fun h hm => List.mem_cons_of_mem _ (hsub h hm), hlen⟩
  · simp only [hx, Bool.false_eq_true, if_false]
    exact ⟨hnd, hsub, hlen⟩

theorem embImgs_inv (fts : Nat → Bool) (document_id : String)
    (page_num : Nat) : ∀ (imgs : List (Nat × PdfImage)) (st : EmbSt),
    EmbInv st → EmbInv (embImgs fts document_id page_num imgs st) := by
  intro imgs
  induction imgs with
  | nil => intro st h; exact h
  | cons p rest ih =>
    intro st h
    obtain ⟨j, img⟩ := p
    exact ih _ (embStep_inv fts document_id page_num j img st h)

theorem embPages_inv (fts : Nat → Bool) (document_id : String) :
    ∀ (pages : List (Nat × PdfPage)) (st : EmbSt),
    EmbInv st → EmbInv (embPages fts document_id pages st) := by
  intro pages
  induction pages with
  | nil => intro st h; exact h
  | cons p rest ih =>
    intro st h
    obtain ⟨i, pg⟩ := p
    exact ih _ (embImgs_inv fts document_id i pg.images.enum st h)

/-- C6: within one extraction run, embedded images are deduplicated by
content hash — the run's embedded-extraction state (STEP 2 of
`extract_all_images`, whose `descs` are exactly the embedded descriptors
persisted and returned) carries one content hash per persisted embedded
descriptor, and those hashes are pairwise distinct: no two persisted Image
rows of the run share a content hash. -/
theorem extract_all_images_dedups_by_hash (fts : Nat → Bool) (d : PdfDoc)
    (document_id : String) (wc : List (Nat × Nat)) (db : Db) :
    ((embPages fts document_id d.pages.enum
        { descs := [], seen := [], emitted := [],
          db := (renderPages fts document_id wc d.pages.enum db).2 }).emitted).Nodup
    ∧ (embPages fts document_id d.pages.enum
        { descs := [], seen := [], emitted := [],
          db := (renderPages fts document_id wc d.pages.enum db).2 }).emitted.length
      = (embPages fts document_id d.pages.enum
          { descs := [], seen := [], emitted := [],
            db := (renderPages fts document_id wc d.pages.enum db).2 }).descs.length := by
  have h := embPages_inv fts document_id d.pages.enum
    { descs := [], seen := [], emitted := [],
      db := (renderPages fts document_id wc d.pages.enum db).2 }
    ⟨List.nodup_nil, by simp, rfl⟩
  exact ⟨h.1, h.2.2⟩

/-! ### Render-failure isolation and page ordering (C8) -/

/-- All the non-id fields of a descriptor. -/
def descKey (r : ImgDesc) :
    Nat × Nat × String × Nat × Nat × Nat × String :=
  (r.page_number, r.image_index, r.storage_path, r.width, r.height,
   r.file_size, r.type)

theorem renderPages_noFaults_keys (fts : Nat → Bool)
    (hnf : ∀ n, fts n = false) (document_id : String)
    (wc : List (Nat × Nat)) : ∀ (pages : List (Nat × PdfPage)) (db : Db),
    ((renderPages fts document_id wc pages db).1).map descKey
      = pages.filterMap (fun p =>
          if dictGet wc (p.1 + 1) < 50 ∧ p.2.renderOk = true then
            some (p.1 + 1, 0, renderPagePath document_id p.1,
                  p.2.renderW, p.2.renderH, p.2.renderSize, "page_render")
          else none) := by
  intro pages
  induction pages with
  | nil => intro db; simp [renderPages]
  | cons p rest ih =>
    intro db
    obtain ⟨i, pg⟩ := p
    rw [List.filterMap_cons]
    by_cases hlt : dictGet wc (i + 1) < 50
    · by_cases hrok : pg.renderOk
      · simp only [renderPages, _render_page_as_image, insert_document_image,
          hlt, if_true, hrok, hnf db.attempt, Bool.false_eq_true, if_false]
        rw [if_pos (by simp [hlt, hrok])]
        simp only [List.map_cons, descKey]
        rw [ih]
      · simp only [renderPages, _render_page_as_image, hlt, if_true, hrok,
          Bool.false_eq_true, if_false]
        rw [if_neg (by simp [hrok])]
        exact ih _
    · simp only [renderPages, hlt, if_false]
      rw [if_neg (by simp [hlt])]
      exact ih _

theorem renderPages_mem_page (fts : Nat → Bool) (document_id : String)
    (wc : List (Nat × Nat)) : ∀ (pages : List (Nat × PdfPage)) (db : Db)
    (r : ImgDesc), r ∈ (renderPages fts document_id wc pages db).1 →
    ∃ p ∈ pages, r.page_number = p.1 + 1 := by
  intro pages
  induction pages with
  | nil => intro db r hr; simp [renderPages] at hr
  | cons p rest ih =>
    intro db r hr
    obtain ⟨i, pg⟩ := p
    by_cases hlt : dictGet wc (i + 1) < 50
    · simp only [renderPages, hlt, if_true] at hr
      rcases hrm : _render_page_as_image fts pg i document_id db with ⟨od, db'⟩
      rw [hrm] at hr
      cases od with
      | some dsc =>
        simp only [List.mem_cons] at hr
        rcases hr with he | hm
        · subst he
          refine ⟨(i, pg), List.mem_cons_self _ _, ?_⟩
          unfold _render_page_as_image at hrm
          by_cases hrok : pg.renderOk
          · rw [if_pos hrok] at hrm
            rcases hi : insert_document_image fts db document_id (i + 1) 0
                (renderPagePath document_id i) pg.renderW pg.renderH
                pg.renderSize with ⟨oid, db''⟩
            rw [hi] at hrm
            cases oid with
            | some nid =>
              simp only [Prod.mk.injEq, Option.some.injEq] at hrm
              rw [← hrm.1]
            | none => simp at hrm
          · rw [if_neg hrok] at hrm
            simp at hrm
        · obtain ⟨q, hq, he⟩ := ih db' r hm
          exact ⟨q, List.mem_cons_of_mem _ hq, he⟩
      | none =>
        obtain ⟨q, hq, he⟩ := ih db' r hr
        exact ⟨q, List.mem_cons_of_mem _ hq, he⟩
    · simp only [renderPages, hlt, if_false] at hr
      obtain ⟨q, hq, he⟩ := ih db r hr
      exact ⟨q, List.mem_cons_of_mem _ hq, he⟩

theorem renderPages_sorted (fts : Nat → Bool) (document_id : String)
    (wc : List (Nat × Nat)) : ∀ (pages : List (Nat × PdfPage)) (db : Db),
    pages.Pairwise (fun a b => a.1 < b.1) →
    ((renderPages fts document_id wc pages db).1).Pairwise
      (fun a b => a.page_number < b.page_number) := by
  intro pages
  induction pages with
  | nil => intro db _; simp [renderPages]
  | cons p rest ih =>
    intro db hp
    obtain ⟨i, pg⟩ := p
    rw [List.pairwise_cons] at hp
    by_cases hlt : dictGet wc (i + 1) < 50
    · simp only [renderPages, hlt, if_true]
      rcases hrm : _render_page_as_image fts pg i document_id db with ⟨od, db'⟩
      cases od with
      | some dsc =>
        rw [List.pairwise_cons]
        constructor
        · intro r hr
          obtain ⟨q, hq, he⟩ := renderPages_mem_page fts document_id wc rest
            db' r hr
          have hpn : dsc.page_number = i + 1 := by
            unfold _render_page_as_image at hrm
            by_cases hrok : pg.renderOk
            · rw [if_pos hrok] at hrm
              rcases hi : insert_document_image fts db document_id (i + 1) 0
                  (renderPagePath document_id i) pg.renderW pg.renderH
                  pg.renderSize with ⟨oid, db''⟩
              rw [hi] at hrm
              cases oid with
              | some nid =>
                simp only [Prod.mk.injEq, Option.some.injEq] at hrm
                rw [← hrm.1]
              | none => simp at hrm
            · rw [if_neg hrok] at hrm
              simp at hrm
          rw [hpn, he]
          have := hp.1 q hq
          omega
        · exact ih db' hp.2
      | none => exact ih db' hp.2
    · simp only [renderPages, hlt, if_false]
      exact ih db hp.2

theorem mem_enumFrom_fst_ge {α : Type} :
    ∀ (l : List α) (n : Nat) (p : Nat × α), p ∈ l.enumFrom n → n ≤ p.1 := by
  intro l
  induction l with
  | nil => intro n p hp; simp [List.enumFrom] at hp
  | cons a t ih =>
    intro n p hp
    rw [List.enumFrom, List.mem_cons] at hp
    rcases hp with he | hm
    · subst he; exact le_refl n
    · exact Nat.le_of_succ_le (ih (n + 1) p hm)

theorem enumFrom_pairwise_fst {α : Type} :
    ∀ (l : List α) (n : Nat),
    (l.enumFrom n).Pairwise (fun a b => a.1 < b.1) := by
  intro l
  induction l with
  | nil => intro n; simp [List.enumFrom]
  | cons a t ih =>
    intro n
    rw [List.enumFrom, List.pairwise_cons]
    exact ⟨fun p hp => Nat.lt_of_succ_le (mem_enumFrom_fst_ge t (n + 1) p hp),
      ih (n + 1)⟩

/-- C8: a render failure on one page is caught and only that page is
excluded: with no database faults, the page-render descriptors are exactly
(by all their non-id fields) the low-text pages whose render succeeded, in
page order; the render list is sorted by page number; and the whole batch
still returns successfully with those renders first. -/
theorem render_failure_isolated_and_sorted (fts : Nat → Bool)
    (hnf : ∀ n, fts n = false) (d : PdfDoc) (document_id : String)
    (wc : List (Nat × Nat)) (db : Db) :
    ((renderPages fts document_id wc d.pages.enum db).1).map descKey
      = d.pages.enum.filterMap (fun p =>
          if dictGet wc (p.1 + 1) < 50 ∧ p.2.renderOk = true then
            some (p.1 + 1, 0, renderPagePath document_id p.1,
                  p.2.renderW, p.2.renderH, p.2.renderSize, "page_render")
          else none) ∧
    ((renderPages fts document_id wc d.pages.enum db).1).Pairwise
      (fun a b => a.page_number < b.page_number) ∧
    (extract_all_images fts (.ok d) document_id wc db).1
      = .ok ((renderPages fts document_id wc d.pages.enum db).1 ++
          (embPages fts document_id d.pages.enum
            { descs := [], seen := [], emitted := [],
              db := (renderPages fts document_id wc d.pages.enum db).2 }).descs) :=
  ⟨renderPages_noFaults_keys fts hnf document_id wc d.pages.enum db,
   renderPages_sorted fts document_id wc d.pages.enum db
     (enumFrom_pairwise_fst d.pages 0),
   rfl⟩

/-- The failing page for the C8 witness. -/
def badPage : PdfPage := { lowPage with renderOk := false }

/-- Ten low-text pages, the third of which fails to render. -/
def dC8 : PdfDoc :=
  { pages := [lowPage, lowPage, badPage, lowPage, lowPage, lowPage, lowPage,
              lowPage, lowPage, lowPage],
    title := "", author := "", subject := "", creator := "", producer := "",
    creationDate := "", modDate := "", fileSize := 0 }

/-- Witness: with page 3 of 10 failing to render, the other 9 page renders
are all present, in page order. -/
theorem render_failure_isolated_and_sorted_witness :
    (∀ n : Nat, (fun _ : Nat => false) n = false) ∧
    ((renderPages (fun _ => false) "doc1" [] dC8.pages.enum db0).1).Pairwise
      (fun a b => a.page_number < b.page_number) ∧
    ((renderPages (fun _ => false) "doc1" [] dC8.pages.enum db0).1).map
        (fun r => r.page_number) = [1, 2, 4, 5, 6, 7, 8, 9, 10] :=
  ⟨fun _ => rfl,
   (render_failure_isolated_and_sorted (fun _ => false) (fun _ => rfl) dC8
     "doc1" [] db0).2.1,
   by decide⟩

/-! ## OCR (`OCRService`, ocr_service.py)

The service wraps a single recognition engine (the EasyOCR reader).
`process_image` opens the image, runs `reader.readtext`, joins and cleans
the detected text and averages the confidences; any exception yields a
`failed` result with the error recorded.  `process_batch` submits every
image to a worker pool and collects one result per image (a per-item
timeout also yields a `failed` result).  The pool's completion order is a
permutation of input order; the model returns results in input order, and
the proved facts (one result per input, matched by id) are
order-insensitive.  Engine-level detail (PIL, numpy, the reader) is
abstracted into an environment of per-path outcomes; wall-clock `duration`
fields are omitted.  `process_image` additionally returns, as ghost
instrumentation, the number of engine invocations it performed. -/

/-- External-world outcomes per image path. -/
structure OcrEnv where
  /-- `Path(image_path).exists()`. -/
  fileExists : String → Bool
  /-- `PIL.Image.open` + numpy conversion: `ok` or the exception text. -/
  openImage : String → Except String Unit
  /-- `reader.readtext`: detections `(text, confidence)` with confidence in
  `[0, 1]`, or the exception text. -/
  engine : String → Except String (List (PyStr × ℚ))
  /-- `future.result(self.timeout)` raised for this item: the recorded
  error text, if so. -/
  timesOut : String → Option String

/-- An OCR result dict (without the wall-clock `duration` field). -/
structure OcrResult where
  image_id : String
  image_path : String
  text : PyStr
  confidence : ℚ
  status : String
  word_count : Nat
  error : Option String
deriving DecidableEq

/-- `OCRService._clean_text`: `" ".join(text.split())` (already free of
leading/trailing whitespace, so the final `strip()` is the identity). -/
def _clean_text (t : PyStr) : PyStr := joinSp (pySplit t)

/-- Python `round(x, 2)` (banker's rounding on binary floats idealised as
rounding of the exact rational). -/
def round2 (q : ℚ) : ℚ := (round (q * 100) : ℚ) / 100

/-- The `failed` result record built by the exception handlers. -/
def failedResult (image_path image_id e : String) : OcrResult :=
  { image_id := image_id, image_path := image_path, text := [],
    confidence := 0, status := "failed", word_count := 0, error := some e }

/-- `OCRService.process_image`.  The second component is ghost: how many
engine invocations were made (0 when the failure precedes the engine
call). -/
def process_image (env : OcrEnv) (image_path image_id : String) :
    OcrResult × Nat :=
  if env.fileExists image_path then
    match env.openImage image_path with
    | .error e => (failedResult image_path image_id e, 0)
    | .ok _ =>
      match env.engine image_path with
      | .error e => (failedResult image_path image_id e, 1)
      | .ok dets =>
        let texts := dets.map (fun d => d.1)
        let confidences := dets.map (fun d => d.2)
        let full_text := joinSp texts
        let avg : ℚ := if confidences.length ≠ 0 then
            confidences.sum / confidences.length * 100 else 0
        let cleaned := _clean_text full_text
        ({ image_id := image_id, image_path := image_path, text := cleaned,
           confidence := round2 avg, status := "completed",
           word_count := (pySplit cleaned).length, error := none }, 1)
  else
    (failedResult image_path image_id s!"Image not found: {image_path}", 0)

/-- An entry of a batch request: `{id, path}`. -/
structure BatchImage where
  id : String
  path : String
deriving DecidableEq

/-- `OCRService.process_batch`: one result per submitted image; a per-item
timeout is converted into a `failed` record for that image only. -/
def process_batch (env : OcrEnv) (images : List BatchImage) :
    List OcrResult :=
  images.map (fun img =>
    match env.timesOut img.path with
    | some e => failedResult img.path img.id e
    | none => (process_image env img.path img.id).1)

/-- The claim as stated by the specification: when the (primary) engine
attempt raises, `process_image` transparently retries with a secondary
fallback engine — i.e. at least two engine invocations are made for that
image. -/
def primaryFallbackRetry : Prop :=
  ∀ (env : OcrEnv) (path id : String),
    env.fileExists path = true →
    env.openImage path = .ok () →
    (∃ e, env.engine path = .error e) →
    2 ≤ (process_image env path id).2

/-- Environment for the C2 scenario: every file exists and opens, the
engine raises on `p3.jpg` and succeeds elsewhere, nothing times out. -/
def envC2 : OcrEnv :=
  { fileExists := fun _ => true,
    openImage := fun _ => .ok (),
    engine := fun p => if p = "p3.jpg" then .error "boom"
      else .ok [(pyStr "ok", 9/10)],
    timesOut := fun _ => none }

/-- C2 (counterexample): there is no fallback engine.  On `p3.jpg`, whose
engine attempt raises, `process_image` makes exactly one engine invocation
(and returns a `failed` result with no fallback outcome and no
`engine=fallback` field), refuting the claimed retry with a secondary
engine. -/
theorem process_image_no_fallback : ¬ primaryFallbackRetry := by
  intro hA
  have h := hA envC2 "p3.jpg" "img3" rfl rfl ⟨"boom", by rfl⟩
  have heval : (process_image envC2 "p3.jpg" "img3").2 = 1 := by rfl
  omega

/-- C2 (amended): the single OCR engine is tried at most once per image; on
an engine exception the image's result has `status="failed"` with the error
recorded (empty text, confidence 0) — there is no fallback attempt and no
engine field; and `process_batch` returns exactly one result per input
image, matched to it by id, so a failing image is never silently dropped. -/
theorem process_batch_single_engine_no_drop (env : OcrEnv)
    (imgs : List BatchImage) :
    (process_batch env imgs).length = imgs.length ∧
    (∀ i : Nat, ((process_batch env imgs)[i]?).map (fun r => r.image_id)
      = (imgs[i]?).map (fun b => b.id)) ∧
    (∀ path id : String, (process_image env path id).2 ≤ 1) ∧
    (∀ path id e : String, env.fileExists path = true →
      env.openImage path = .ok () → env.engine path = .error e →
      (process_image env path id).1.status = "failed" ∧
      (process_image env path id).1.error = some e ∧
      (process_image env path id).1.text = [] ∧
      (process_image env path id).1.confidence = 0 ∧
      (process_image env path id).2 = 1) := by
  have hid : ∀ path id : String,
      (process_image env path id).1.image_id = id := by
    intro path id
    unfold process_image
    by_cases hf : env.fileExists path
    · simp only [hf, if_true]
      rcases ho : env.openImage path with e | u
      · simp [failedResult]
      · rcases he : env.engine path with e | dets
        · simp [failedResult]
        · simp
    · simp [hf, failedResult]
  refine ⟨List.length_map _ _, ?_, ?_, ?_⟩
  · intro i
    unfold process_batch
    rw [List.getElem?_map]
    rcases hi : imgs[i]? with _ | img
    · simp [hi]
    · simp only [hi, Option.map_some']
      rcases ht : env.timesOut img.path with _ | e
      · simp only [ht]
        exact congrArg some (hid img.path img.id)
      · simp [ht, failedResult]
  · intro path id
    unfold process_image
    by_cases hf : env.fileExists path
    · simp only [hf, if_true]
      rcases ho : env.openImage path with e | u
      · simp
      · rcases he : env.engine path with e | dets
        · simp
        · simp
    · simp [hf]
  · intro path id e hf ho he
    unfold process_image
    rw [if_pos hf, ho, he]
    exact ⟨rfl, rfl, rfl, rfl, rfl⟩

/-- The C2 scenario batch: 5 images, number 3 of which will fail. -/
def imgs5 : List BatchImage :=
  [{ id := "img1", path := "p1.jpg" }, { id := "img2", path := "p2.jpg" },
   { id := "img3", path := "p3.jpg" }, { id := "img4", path := "p4.jpg" },
   { id := "img5", path := "p5.jpg" }]

/-- Witness: in the 5-image batch all 5 results come back matched by id,
and image 3's result is `failed` with the engine error recorded after a
single engine attempt. -/
theorem process_batch_single_engine_no_drop_witness :
    (process_batch envC2 imgs5).length = 5 ∧
    ((process_batch envC2 imgs5)[2]?).map (fun r => r.image_id)
      = some "img3" ∧
    (process_image envC2 "p3.jpg" "img3").1.status = "failed" ∧
    (process_image envC2 "p3.jpg" "img3").1.error = some "boom" ∧
    (process_image envC2 "p3.jpg" "img3").2 = 1 := by
  have h := process_batch_single_engine_no_drop envC2 imgs5
  have h4 := h.2.2.2 "p3.jpg" "img3" "boom" rfl rfl (by rfl)
  exact ⟨h.1, by rw [h.2.1 2]; rfl, h4.1, h4.2.1, h4.2.2.2.2⟩

/-! ## Embeddings (`EmbeddingService`, embedding_service.py)

The embedding backend (`self.model.encode`) is a parameter: a function from
a batch of texts to one vector per text (floats idealised as rationals).
`generate_batch_embeddings` forwards the text list to the backend —
verbatim — and returns its output; backend exceptions propagate.
`generate_embedding` (single text) raises on empty or whitespace-only
input. -/

/-- The backend's batched encode call. -/
abbrev EmbedBackend := List String → Except String (List (List ℚ))

/-- Python `not text or not text.strip()`: the string is empty or all
whitespace. -/
def pyStrBlank (s : String) : Bool := s.toList.all (fun c => isSpace c)

/-- `EmbeddingService.generate_embedding` (single text). -/
def generate_embedding (encode1 : String → Except String (List ℚ))
    (text : String) : Except String (List ℚ) :=
  if pyStrBlank text then .error "Text cannot be empty"
  else encode1 text

/-- `EmbeddingService.generate_batch_embeddings`: empty input short-circuits
to `[]`; otherwise the texts are handed to `model.encode` as they are. -/
def generate_batch_embeddings (encode : EmbedBackend)
    (texts : List String) : Except String (List (List ℚ)) :=
  if texts.isEmpty then .ok []
  else encode texts

/-- The argument `generate_batch_embeddings` passes to the backend ( `[]`
standing for "no call made"). -/
def sentTexts (texts : List String) : List String :=
  if texts.isEmpty then [] else texts

/-- The claim as stated by the specification: every empty or
whitespace-only string is substituted with a placeholder token before being
sent to the backend — no blank string is ever sent. -/
def blankTextsSubstituted : Prop :=
  ∀ texts : List String, ∀ t ∈ sentTexts texts, pyStrBlank t = false

/-- C3 (counterexample): `generate_batch_embeddings(["hello", "", "world"])`
sends the empty string to the backend as-is — there is no placeholder
substitution anywhere in the service. -/
theorem generate_batch_embeddings_sends_blank : ¬ blankTextsSubstituted := by
  intro hA
  have h := hA ["hello", "", "world"] "" (by decide)
  exact absurd h (by decide)

/-- C3 (amended): the texts are passed unchanged to the backend (blank
strings included, with no placeholder substitution), and for a backend
honouring the encode contract — one vector per input, each of the backend's
fixed dimension — the call returns one vector per input text, of identical
dimension, in input order. -/
theorem generate_batch_embeddings_one_vector_per_text
    (encode : EmbedBackend) (dim : Nat)
    (hc : ∀ ts r, encode ts = .ok r →
      r.length = ts.length ∧ ∀ v ∈ r, v.length = dim)
    (texts : List String) (r : List (List ℚ))
    (h : generate_batch_embeddings encode texts = .ok r) :
    (texts ≠ [] → sentTexts texts = texts) ∧
    r.length = texts.length ∧ ∀ v ∈ r, v.length = dim := by
  unfold generate_batch_embeddings at h
  by_cases he : texts.isEmpty
  · rw [if_pos he] at h
    simp only [Except.ok.injEq] at h
    subst h
    rw [List.isEmpty_iff] at he
    subst he
    exact ⟨fun hne => absurd rfl hne, rfl, by intro v hv; simp at hv⟩
  · rw [if_neg he] at h
    refine ⟨fun _ => ?_, hc texts r h⟩
    unfold sentTexts
    rw [if_neg he]

/-- A sample backend returning a 2-dimensional zero vector per text. -/
def encodeC3 : EmbedBackend := fun ts => .ok (ts.map (fun _ => [0, 0]))

theorem encodeC3_contract : ∀ ts r, encodeC3 ts = .ok r →
    r.length = ts.length ∧ ∀ v ∈ r, v.length = 2 := by
  intro ts r h
  simp only [encodeC3, Except.ok.injEq] at h
  subst h
  refine ⟨List.length_map _ _, ?_⟩
  intro v hv
  rw [List.mem_map] at hv
  obtain ⟨a, -, he⟩ := hv
  rw [← he]
  rfl

/-- Witness: `embedBatch(["hello", "", "world"])` under `encodeC3` returns
3 vectors, one per input, each of dimension 2, with the input passed
unchanged. -/
theorem generate_batch_embeddings_one_vector_per_text_witness :
    generate_batch_embeddings encodeC3 ["hello", "", "world"]
      = .ok [[0, 0], [0, 0], [0, 0]] ∧
    sentTexts ["hello", "", "world"] = ["hello", "", "world"] ∧
    ([[(0 : ℚ), 0], [0, 0], [0, 0]] : List (List ℚ)).length
      = (["hello", "", "world"] : List String).length ∧
    ∀ v ∈ ([[(0 : ℚ), 0], [0, 0], [0, 0]] : List (List ℚ)), v.length = 2 := by
  have h := generate_batch_embeddings_one_vector_per_text encodeC3 2
    encodeC3_contract ["hello", "", "world"] [[0, 0], [0, 0], [0, 0]] rfl
  exact ⟨rfl, h.1 (by decide), h.2.1, h.2.2⟩

/-! ## Similarity search (`EmbeddingService.search_similar`)

Vectors are rationals; the cosine-similarity score, which involves a square
root, lives in `ℝ`.  Python's `list.sort(key=..., reverse=True)` is a
stable sort by descending key; its specification (not its timsort
implementation) is modelled by Mathlib's stable `insertionSort` with the
relation "score of the left argument is at least the score of the right".
-/

/-- `np.dot` on equal-length vectors. -/
def dotQ (a b : List ℚ) : ℚ := (List.zipWith (· * ·) a b).sum

/-- `np.linalg.norm`. -/
noncomputable def normQ (a : List ℚ) : ℝ := Real.sqrt ((dotQ a a : ℚ) : ℝ)

/-- Cosine similarity exactly as computed in the source:
`np.dot(q, c) / (np.linalg.norm(q) * np.linalg.norm(c))`. -/
noncomputable def cosineSim (a b : List ℚ) : ℝ :=
  ((dotQ a b : ℚ) : ℝ) / (normQ a * normQ b)

/-- An entry of `embeddings_list` (its `embedding` plus opaque payload). -/
structure EmbItem where
  id : String
  embedding : List ℚ
  text : String

/-- An output entry: the item with its `similarity_score` attached. -/
structure ScoredItem where
  item : EmbItem
  similarity_score : ℝ

/-- The scoring loop of `search_similar`. -/
noncomputable def scoreList (qv : List ℚ) (l : List EmbItem) :
    List ScoredItem :=
  l.map (fun it => { item := it, similarity_score := cosineSim qv it.embedding })

/-- `EmbeddingService.search_similar`: score every candidate, stable-sort
descending by score, return the first `top_k`. -/
noncomputable def search_similar (encode1 : String → Except String (List ℚ))
    (query : String) (embeddings_list : List EmbItem) (top_k : Nat) :
    Except String (List ScoredItem) :=
  match generate_embedding encode1 query with
  | .error e => .error e
  | .ok qv =>
    .ok (((scoreList qv embeddings_list).insertionSort
      (fun a b => b.similarity_score ≤ a.similarity_score)).take top_k)

/-- Strict "comes before" order of the output: strictly greater score, or
equal score and smaller original position (the tie-break of a stable
sort). -/
def lexBefore (a b : Nat × ScoredItem) : Prop :=
  b.2.similarity_score < a.2.similarity_score ∨
    (a.2.similarity_score = b.2.similarity_score ∧ a.1 < b.1)

theorem orderedInsert_pairwise_lex (a : Nat × ScoredItem) :
    ∀ (l : List (Nat × ScoredItem)), l.Pairwise lexBefore →
    (∀ b ∈ l, a.1 < b.1) →
    (l.orderedInsert
        (fun x y => y.2.similarity_score ≤ x.2.similarity_score) a).Pairwise
      lexBefore := by
  intro l
  induction l with
  | nil => intro _ _; simp [List.orderedInsert]
  | cons y t ih =>
    intro hp hgt
    rw [List.pairwise_cons] at hp
    obtain ⟨hy, ht⟩ := hp
    by_cases hr : y.2.similarity_score ≤ a.2.similarity_score
    · rw [List.orderedInsert, if_pos hr, List.pairwise_cons]
      constructor
      · intro z hz
        rcases List.mem_cons.mp hz with he | hm
        · subst he
          rcases lt_or_eq_of_le hr with hlt | heq
          · exact Or.inl hlt
          · exact Or.inr ⟨heq.symm, hgt z (List.mem_cons_self _ _)⟩
        · rcases hy z hm with hlt | ⟨heq, _⟩
          · exact Or.inl (lt_of_lt_of_le hlt hr)
          · rcases lt_or_eq_of_le (heq ▸ hr) with hlt | heq2
            · exact Or.inl hlt
            · exact Or.inr ⟨heq2.symm,
                hgt z (List.mem_cons_of_mem _ hm)⟩
      · rw [List.pairwise_cons]
        exact ⟨hy, ht⟩
    · rw [List.orderedInsert, if_neg hr, List.pairwise_cons]
      constructor
      · intro z hz
        rcases (List.mem_orderedInsert _).mp hz with he | hm
        · subst he
          exact Or.inl (lt_of_not_le hr)
        · exact hy z hm
      · exact ih ht (fun b hb => hgt b (List.mem_cons_of_mem _ hb))

theorem insertionSort_pairwise_lex :
    ∀ (l : List (Nat × ScoredItem)), l.Pairwise (fun a b => a.1 < b.1) →
    (l.insertionSort
        (fun x y => y.2.similarity_score ≤ x.2.similarity_score)).Pairwise
      lexBefore := by
  intro l
  induction l with
  | nil => intro _; simp [List.insertionSort]
  | cons a t ih =>
    intro hp
    rw [List.pairwise_cons] at hp
    rw [List.insertionSort]
    refine orderedInsert_pairwise_lex a _ (ih hp.2) ?_
    intro b hb
    exact hp.1 b ((List.mem_insertionSort _).mp hb)

/-- C5: whenever `search_similar` succeeds, each candidate is assigned the
cosine similarity `dot(q, c) / (norm(q) * norm(c))` of the query embedding
with its embedding (the `scoreList`), the output is the first `top_k` of an
arrangement of the scored candidates that is strictly sorted by descending
score with ties broken by original candidate position (stable sort), and
exactly `min(top_k, number of candidates)` results are returned. -/
theorem search_similar_sorted_stable_topk
    (encode1 : String → Except String (List ℚ)) (query : String)
    (lst : List EmbItem) (top_k : Nat) (res : List ScoredItem)
    (h : search_similar encode1 query lst top_k = .ok res) :
    ∃ qv, generate_embedding encode1 query = .ok qv ∧
      res.length = min top_k lst.length ∧
      ∃ all : List (Nat × ScoredItem),
        all.Perm (scoreList qv lst).enum ∧
        all.Pairwise lexBefore ∧
        res = (all.map Prod.snd).take top_k := by
  unfold search_similar at h
  rcases hq : generate_embedding encode1 query with e | qv
  · rw [hq] at h; exact absurd h (by simp)
  · rw [hq] at h
    simp only [Except.ok.injEq] at h
    subst h
    refine ⟨qv, rfl, ?_, ?_⟩
    · rw [List.length_take, List.length_insertionSort, scoreList,
        List.length_map]
    · refine ⟨(scoreList qv lst).enum.insertionSort
        (fun x y => y.2.similarity_score ≤ x.2.similarity_score),
        List.perm_insertionSort _ _,
        insertionSort_pairwise_lex _ (enumFrom_pairwise_fst _ 0), ?_⟩
      rw [List.map_insertionSort
          (fun x y => (y : Nat × ScoredItem).2.similarity_score
            ≤ x.2.similarity_score)
          (fun a b => (b : ScoredItem).similarity_score ≤ a.similarity_score)
          Prod.snd _ (fun a _ b _ => Iff.rfl)]
      have henum : (scoreList qv lst).enum.map Prod.snd = scoreList qv lst :=
        List.enumFrom_map_snd 0 (scoreList qv lst)
      rw [henum]

/-- Witness for the search theorem at an empty candidate list. -/
theorem search_similar_sorted_stable_topk_witness :
    search_similar (fun _ => .ok []) "a" [] 0 = .ok [] ∧
    (∃ qv, generate_embedding (fun _ => .ok []) "a" = .ok qv ∧
      ([] : List ScoredItem).length = min 0 ([] : List EmbItem).length ∧
      ∃ all : List (Nat × ScoredItem),
        all.Perm (scoreList qv []).enum ∧
        all.Pairwise lexBefore ∧
        ([] : List ScoredItem) = (all.map Prod.snd).take 0) :=
  ⟨rfl, search_similar_sorted_stable_topk (fun _ => .ok []) "a" [] 0 [] rfl⟩

end Prism
